import Mathlib

/-!
Verification of the heterogeneous-transformer orchestration layer
(`ngraph/transformers/hetrtransform.py`) against its specification.

The Python source is shallowly embedded: each relevant fragment of the
module becomes an executable Lean definition, and the spec's claims are
stated and settled as theorems about those definitions.
-/

set_option maxHeartbeats 1000000

/-- The module-level constant `_OPS_PER_MSG = 10` of hetrtransform.py. -/
def OPS_PER_MSG : Nat := 10

theorem OPS_PER_MSG_def : OPS_PER_MSG = 10 := rfl

/-- The chunking loop of `HetrComputation.__init__` (lines 121-128):

    for i, o in enumerate(whole_graph):
        pb_ops.append(op_to_protobuf(o))
        add_edges(pb_edges, pb_ops, o)
        if (i != 0 and i % _OPS_PER_MSG == 0) or (i == len(whole_graph) - 1):
            pb_whole_graph.append((pb_ops, pb_edges))
            pb_ops, pb_edges = [], []

Ops are abstracted by their serialized descriptors (`op_to_protobuf` is
injective renaming, modelled as the identity); the parallel `pb_edges`
accumulator is built by `serde.add_edges`, outside this module, and is
flushed at exactly the same indices, so the chunk boundaries proved here
apply to it verbatim.  `len` is the (constant) length of the enumerated
list, `i` the loop index, the third argument the current `pb_ops`
accumulator, the fourth the remaining suffix of `whole_graph`. -/
def chunkGo {α : Type} (len : Nat) : Nat → List α → List α → List (List α)
  | _, _, [] => []
  | i, pb_ops, o :: rest =>
    let acc := pb_ops ++ [o]
    if (i ≠ 0 ∧ i % OPS_PER_MSG = 0) ∨ i = len - 1 then
      acc :: chunkGo len (i + 1) [] rest
    else
      chunkGo len (i + 1) acc rest

/-- `pb_whole_graph` as produced by the loop above, starting from index 0
with empty accumulators. -/
def pbWholeGraph {α : Type} (whole_graph : List α) : List (List α) :=
  chunkGo whole_graph.length 0 [] whole_graph

theorem chunkGo_join {α : Type} (len : Nat) :
    ∀ (l : List α) (i : Nat) (acc : List α), i + l.length = len → l ≠ [] →
      (chunkGo len i acc l).flatten = acc ++ l := by
  intro l
  induction l with
  | nil => intro i acc _ h; exact absurd rfl h
  | cons o rest ih =>
    intro i acc hlen _
    by_cases hrest : rest = []
    · subst hrest
      have hi : i = len - 1 := by simp only [List.length_cons, List.length_nil] at hlen; omega
      simp [chunkGo, hi]
    · have hlen' : (i + 1) + rest.length = len := by
        simp only [List.length_cons] at hlen; omega
      by_cases hf : ((i ≠ 0 ∧ i % OPS_PER_MSG = 0) ∨ i = len - 1)
      · simp only [chunkGo, if_pos hf, List.flatten_cons]
        rw [ih (i + 1) [] hlen' hrest]
        simp
      · simp only [chunkGo, if_neg hf]
        rw [ih (i + 1) (acc ++ [o]) hlen' hrest]
        simp

theorem chunkGo_length {α : Type} (len : Nat) :
    ∀ (l : List α) (i : Nat) (acc : List α),
      (chunkGo len i acc l).length =
        (List.range' i l.length).countP
          (fun j => decide ((j ≠ 0 ∧ j % OPS_PER_MSG = 0) ∨ j = len - 1)) := by
  intro l
  induction l with
  | nil => intro i acc; simp [chunkGo]
  | cons o rest ih =>
    intro i acc
    rw [List.length_cons, List.range'_succ, List.countP_cons]
    by_cases hf : ((i ≠ 0 ∧ i % OPS_PER_MSG = 0) ∨ i = len - 1)
    · simp only [chunkGo, if_pos hf, List.length_cons]
      rw [ih (i + 1) []]
      simp [hf]
    · simp only [chunkGo, if_neg hf]
      rw [ih (i + 1) (acc ++ [o])]
      simp [hf]

theorem countP_mult_range :
    ∀ n : Nat,
      (List.range n).countP (fun j => decide (j ≠ 0 ∧ j % OPS_PER_MSG = 0)) = (n - 1) / 10 := by
  intro n
  induction n with
  | zero => rfl
  | succ m ih =>
    rw [List.range_succ, List.countP_append, ih, List.countP_cons, List.countP_nil]
    simp only [decide_eq_true_eq, OPS_PER_MSG_def]
    by_cases hm : (m ≠ 0 ∧ m % 10 = 0)
    · rw [if_pos hm]; omega
    · rw [if_neg hm]; omega

theorem countP_flush_range (N : Nat) (h : 1 ≤ N) :
    (List.range N).countP
        (fun j => decide ((j ≠ 0 ∧ j % OPS_PER_MSG = 0) ∨ j = N - 1)) =
      (N - 2) / 10 + 1 := by
  obtain ⟨M, rfl⟩ : ∃ M, N = M + 1 := ⟨N - 1, by omega⟩
  rw [List.range_succ, List.countP_append]
  have h1 : (List.range M).countP
      (fun j => decide ((j ≠ 0 ∧ j % OPS_PER_MSG = 0) ∨ j = M + 1 - 1)) =
      (List.range M).countP (fun j => decide (j ≠ 0 ∧ j % OPS_PER_MSG = 0)) := by
    apply List.countP_congr
    intro a ha
    have haM : a < M := List.mem_range.mp ha
    simp only [decide_eq_true_eq]
    constructor
    · rintro (h | h)
      · exact h
      · exfalso; omega
    · intro h
      exact Or.inl h
  rw [h1, countP_mult_range, List.countP_cons, List.countP_nil]
  simp only [decide_eq_true_eq]
  rw [if_pos (show (M ≠ 0 ∧ M % OPS_PER_MSG = 0) ∨ M = M + 1 - 1 from Or.inr (by omega))]
  omega

/-- Claim C1 (amended): serializing a whole graph of N ≥ 1 nodes produces exactly
⌊(N − 2) / 10⌋ + 1 transport chunks — equivalently max(1, ⌈(N − 1) / 10⌉), not
⌈N / 10⌉ — and concatenating the chunks' operation lists in chunk order
reproduces the original serialization order of the N nodes. -/
theorem chunking_count_and_order {α : Type} (g : List α) (h : 1 ≤ g.length) :
    (pbWholeGraph g).length = (g.length - 2) / 10 + 1 ∧ (pbWholeGraph g).flatten = g := by
  constructor
  · rw [pbWholeGraph, chunkGo_length, ← List.range_eq_range']
    exact countP_flush_range g.length h
  · have hne : g ≠ [] := by
      intro hg; rw [hg] at h; simp at h
    simpa using chunkGo_join g.length g 0 [] (by simp) hne

/-- Witness for the amended C1 at a concrete 12-node graph: two chunks whose
concatenation restores the original order. -/
theorem chunking_count_and_order_witness :
    (pbWholeGraph (List.range 12)).length = ((List.range 12).length - 2) / 10 + 1 ∧
      (pbWholeGraph (List.range 12)).flatten = List.range 12 :=
  chunking_count_and_order (List.range 12) (by decide)

/-- Counterexample to claim C1 as stated: a whole graph of 11 nodes serializes to
1 chunk (of 11 operations), not ⌈11/10⌉ = 2 chunks. -/
theorem chunking_count_counterexample :
    ¬ ((pbWholeGraph (List.range 11)).length = (11 + 10 - 1) / 10) := by decide

theorem chunkGo_mem_length {α : Type} (len : Nat) :
    ∀ (l : List α) (i : Nat) (acc : List α), i + l.length = len →
      acc.length = (if i ≤ 10 then i else (i - 1) % 10) →
      ∀ c ∈ chunkGo len i acc l, c.length ≤ 11 := by
  intro l
  induction l with
  | nil => intro i acc _ _ c hc; simp [chunkGo] at hc
  | cons o rest ih =>
    intro i acc hlen hinv c hc
    have hacc : acc.length ≤ 10 := by
      rw [hinv]
      by_cases h10 : i ≤ 10
      · rw [if_pos h10]; omega
      · rw [if_neg h10]; omega
    by_cases hf : ((i ≠ 0 ∧ i % OPS_PER_MSG = 0) ∨ i = len - 1)
    · simp only [chunkGo, if_pos hf, List.mem_cons] at hc
      rcases hc with hc | hc
      · subst hc; simp; omega
      · by_cases hrest : rest = []
        · subst hrest; simp [chunkGo] at hc
        · have hi10 : ¬ (i = len - 1) := by
            intro hi
            have : rest.length = 0 := by
              simp only [List.length_cons] at hlen; omega
            exact hrest (List.length_eq_zero.mp this)
          have hmul : i ≠ 0 ∧ i % OPS_PER_MSG = 0 := hf.resolve_right hi10
          have hm10 : i % 10 = 0 := by
            have := hmul.2
            rwa [OPS_PER_MSG_def] at this
          have hge : 10 ≤ i := by
            have := hmul.1
            omega
          refine ih (i + 1) [] ?_ ?_ c hc
          · simp only [List.length_cons] at hlen; omega
          · simp only [List.length_nil]
            have hgt : ¬ (i + 1 ≤ 10) := by omega
            rw [if_neg hgt]
            omega
    · simp only [chunkGo, if_neg hf] at hc
      have hnm : ¬ (i ≠ 0 ∧ i % 10 = 0) := by
        rw [← OPS_PER_MSG_def]
        intro hand
        exact hf (Or.inl hand)
      refine ih (i + 1) (acc ++ [o]) ?_ ?_ c hc
      · simp only [List.length_cons] at hlen; omega
      · simp only [List.length_append, List.length_singleton, hinv]
        by_cases h10 : i ≤ 10
        · have hne10 : i ≠ 10 := by
            intro hi
            exact hnm ⟨by omega, by omega⟩
          have h11 : i + 1 ≤ 10 := by omega
          rw [if_pos h10, if_pos h11]
        · have hmod : i % 10 ≠ 0 := by
            intro hm
            exact hnm ⟨by omega, hm⟩
          have h1 : ¬ (i ≤ 10) := h10
          have h2 : ¬ (i + 1 ≤ 10) := by omega
          rw [if_neg h1, if_neg h2]
          omega

/-- Claim C2 (amended): every transport chunk produced by the serializer holds at
most 11 operation descriptors (the boundary test fires after the 11th append at
index 10, so the chunk closed there holds 11; all others hold at most 10). -/
theorem chunk_size_bound {α : Type} (g : List α) (c : List α)
    (hc : c ∈ pbWholeGraph g) : c.length ≤ 11 :=
  chunkGo_mem_length g.length g 0 [] (by simp) (by simp) c hc

/-- Witness for the amended C2: the first chunk of a 12-node graph is in the
output and its length is within the 11-operation bound. -/
theorem chunk_size_bound_witness :
    List.range 11 ∈ pbWholeGraph (List.range 12) ∧ (List.range 11).length ≤ 11 :=
  ⟨by decide, chunk_size_bound (List.range 12) (List.range 11) (by decide)⟩

/-- Counterexample to claim C2 as stated: serializing 12 nodes produces a chunk
(the first) containing 11 > 10 operation descriptors. -/
theorem chunk_size_counterexample :
    ¬ (∀ c ∈ pbWholeGraph (List.range 12), c.length ≤ 10) := by decide

/-- Python substring test on lists of characters: `listPre n h` is true when
`n` is an initial segment of `h`. -/
def listPre : List Char → List Char → Bool
  | [], _ => true
  | _ :: _, [] => false
  | a :: as, b :: bs => a == b && listPre as bs

/-- Python's `needle in hay` on strings (contiguous substring containment). -/
def listSub : List Char → List Char → Bool
  | n, [] => n.isEmpty
  | n, h :: t => listPre n (h :: t) || listSub n t

/-- `needle in hay` for Lean strings. -/
def strIn (needle hay : String) : Bool := listSub needle.data hay.data

/-- The value found under the `device_id` metadata key: either a plain device
index or a list/tuple of indices (an operation split across devices). -/
inductive DevId : Type
  | one (d : Int)
  | many (ds : List Int)
  deriving DecidableEq

/-- The value found under the `transformer` metadata key: a single transformer
name or a list of names (an op owned by several workers, e.g. a broadcast
parameter). -/
inductive TransMeta : Type
  | one (s : String)
  | many (l : List String)
  deriving DecidableEq

/-- A graph operation as seen by hetrtransform.py: a stable identity (Python
object identity, modelled by `nid`), the `isinstance ResultOp` tag, and the
metadata entries the module reads or writes (`transformer`, `device_id`,
`is_split_op`, `hetr_replaced_by`, `replaces_op`), plus the argument list
(identities of argument ops).  Absent metadata keys are `none`/`false`. -/
structure Node : Type where
  nid : Nat
  isResult : Bool
  transformer : TransMeta
  device_id : Option DevId
  is_split_op : Bool
  hetr_replaced_by : Option Nat
  replaces_op : Option Nat
  args : List Nat
  deriving DecidableEq

/-- `is_my_op` (lines 109-111):

    def is_my_op(op, name):
        op_trans = op.metadata['transformer']
        return name == op_trans or name in op_trans

When the metadata value is a single string, `name in op_trans` is Python
substring containment; when it is a list, `name == op_trans` is False (a
string never equals a list) and `in` is list membership. -/
def is_my_op (op : Node) (name : String) : Bool :=
  match op.transformer with
  | TransMeta.one s => name == s || strIn name s
  | TransMeta.many l => decide (name ∈ l)

/-- The test at lines 80-81: `'device_id' in op.metadata and
isinstance(op.metadata['device_id'], (list, tuple))`. -/
def isSplitDev : Option DevId → Bool
  | some (DevId.many _) => true
  | _ => false

/-- `ResultOp(device_id=0, args=tuple([op]))` together with the assignment
`new_result.metadata['replaces_op'] = op` on line 85.  `freshId` is the new
Python object's identity; `tm` is the transformer metadata that the graph
passes later assign to the wrapper (the passes live outside this module). -/
def mkResultOp (freshId : Nat) (tm : TransMeta) (argId : Nat) : Node :=
  { nid := freshId, isResult := true, transformer := tm,
    device_id := some (DevId.one 0), is_split_op := false,
    hetr_replaced_by := none, replaces_op := some argId, args := [argId] }

/-- One iteration of the loop at lines 79-88: a split return is marked
`is_split_op`, given a forward reference `hetr_replaced_by` to a fresh
`ResultOp` wrapper, and the wrapper (carrying the back reference) joins
`new_returns` in its place; any other return passes through unchanged.
The result pairs the (possibly updated) original with the `new_returns`
entry. -/
def wrapReturn (freshId : Nat) (tm : TransMeta) (op : Node) : Node × Node :=
  if isSplitDev op.device_id then
    ({ op with is_split_op := true, hetr_replaced_by := some freshId },
     mkResultOp freshId tm op.nid)
  else (op, op)

/-- The whole loop at lines 78-88, with fresh wrapper identities drawn from a
counter starting at `fid`. -/
def wrapReturnsGo (tmOf : Nat → TransMeta) : Nat → List Node → List (Node × Node)
  | _, [] => []
  | fid, op :: rest => wrapReturn fid (tmOf fid) op :: wrapReturnsGo tmOf (fid + 1) rest

/-- `new_returns` as an ordered list (`self.returns` holds no duplicates, so
the `OrderedSet.add` calls append). -/
def newReturns (tmOf : Nat → TransMeta) (base : Nat) (rets : List Node) : List Node :=
  (wrapReturnsGo tmOf base rets).map Prod.snd

theorem wrapReturnsGo_getElem (tmOf : Nat → TransMeta) :
    ∀ (l : List Node) (fid i : Nat),
      (wrapReturnsGo tmOf fid l)[i]? =
        (l[i]?).map (fun op => wrapReturn (fid + i) (tmOf (fid + i)) op) := by
  intro l
  induction l with
  | nil => intro fid i; simp [wrapReturnsGo]
  | cons op rest ih =>
    intro fid i
    cases i with
    | zero => simp [wrapReturnsGo]
    | succ j =>
      have e : fid + (j + 1) = (fid + 1) + j := by omega
      simp only [wrapReturnsGo, List.getElem?_cons_succ, e]
      exact ih (fid + 1) j

/-- Claim C6: a requested return whose `device_id` metadata is a list/tuple is
replaced by exactly one fresh ResultOp wrapper taking it as sole argument;
the original records a forward reference to the wrapper and the wrapper a back
reference to the original; all other returns pass through unwrapped. -/
theorem split_return_wrapper (tmOf : Nat → TransMeta) (base : Nat) (rets : List Node)
    (i : Nat) (op : Node) (hget : rets[i]? = some op) :
    (isSplitDev op.device_id = true →
      ∃ orig w, (wrapReturnsGo tmOf base rets)[i]? = some (orig, w) ∧
        (newReturns tmOf base rets)[i]? = some w ∧
        w.isResult = true ∧ w.args = [op.nid] ∧ w.replaces_op = some op.nid ∧
        orig.nid = op.nid ∧ orig.is_split_op = true ∧
        orig.hetr_replaced_by = some w.nid) ∧
    (isSplitDev op.device_id = false →
      (wrapReturnsGo tmOf base rets)[i]? = some (op, op) ∧
      (newReturns tmOf base rets)[i]? = some op) := by
  have hw := wrapReturnsGo_getElem tmOf rets base i
  rw [hget] at hw
  constructor
  · intro hs
    refine ⟨{ op with is_split_op := true, hetr_replaced_by := some (base + i) },
            mkResultOp (base + i) (tmOf (base + i)) op.nid, ?_, ?_, by simp [mkResultOp],
            by simp [mkResultOp], by simp [mkResultOp], by simp, by simp,
            by simp [mkResultOp]⟩
    · rw [hw]
      simp [wrapReturn, hs]
    · rw [newReturns, List.getElem?_map, hw]
      simp [wrapReturn, hs]
  · intro hs
    constructor
    · rw [hw]
      simp [wrapReturn, hs]
    · rw [newReturns, List.getElem?_map, hw]
      simp [wrapReturn, hs]

/-- Witness for C6 at a concrete pair of returns: the first is split across
devices 0 and 1 and gets wrapped, the second is single-device and passes
through. -/
theorem split_return_wrapper_witness :
    (isSplitDev (some (DevId.many [0, 1])) = true →
      ∃ orig w,
        (wrapReturnsGo (fun _ => TransMeta.one "cpu0") 100
          [{ nid := 7, isResult := false, transformer := TransMeta.one "cpu0",
             device_id := some (DevId.many [0, 1]), is_split_op := false,
             hetr_replaced_by := none, replaces_op := none, args := [] }])[0]? =
            some (orig, w) ∧
        (newReturns (fun _ => TransMeta.one "cpu0") 100
          [{ nid := 7, isResult := false, transformer := TransMeta.one "cpu0",
             device_id := some (DevId.many [0, 1]), is_split_op := false,
             hetr_replaced_by := none, replaces_op := none, args := [] }])[0]? = some w ∧
        w.isResult = true ∧ w.args = [7] ∧ w.replaces_op = some 7 ∧
        orig.nid = 7 ∧ orig.is_split_op = true ∧
        orig.hetr_replaced_by = some w.nid) ∧
    (isSplitDev (some (DevId.many [0, 1])) = false →
      (wrapReturnsGo (fun _ => TransMeta.one "cpu0") 100
        [{ nid := 7, isResult := false, transformer := TransMeta.one "cpu0",
           device_id := some (DevId.many [0, 1]), is_split_op := false,
           hetr_replaced_by := none, replaces_op := none, args := [] }])[0]? =
          some ({ nid := 7, isResult := false, transformer := TransMeta.one "cpu0",
                  device_id := some (DevId.many [0, 1]), is_split_op := false,
                  hetr_replaced_by := none, replaces_op := none, args := [] },
                { nid := 7, isResult := false, transformer := TransMeta.one "cpu0",
                  device_id := some (DevId.many [0, 1]), is_split_op := false,
                  hetr_replaced_by := none, replaces_op := none, args := [] }) ∧
      (newReturns (fun _ => TransMeta.one "cpu0") 100
        [{ nid := 7, isResult := false, transformer := TransMeta.one "cpu0",
           device_id := some (DevId.many [0, 1]), is_split_op := false,
           hetr_replaced_by := none, replaces_op := none, args := [] }])[0]? =
          some { nid := 7, isResult := false, transformer := TransMeta.one "cpu0",
                 device_id := some (DevId.many [0, 1]), is_split_op := false,
                 hetr_replaced_by := none, replaces_op := none, args := [] }) :=
  split_return_wrapper (fun _ => TransMeta.one "cpu0") 100
    [{ nid := 7, isResult := false, transformer := TransMeta.one "cpu0",
       device_id := some (DevId.many [0, 1]), is_split_op := false,
       hetr_replaced_by := none, replaces_op := none, args := [] }] 0
    { nid := 7, isResult := false, transformer := TransMeta.one "cpu0",
      device_id := some (DevId.many [0, 1]), is_split_op := false,
      hetr_replaced_by := none, replaces_op := none, args := [] } (by decide)

/-- `OrderedSet` union `a | b`: the elements of `a` in order, then the elements
of `b` not already present. -/
def orderedUnion (a b : List Node) : List Node :=
  a ++ b.filter (fun x => decide (x ∉ a))

/-- `t_returns[t_name] = [r for r in all_returns if is_my_op(r, t_name)]`
(line 133), where `all_returns = [o for o in self.send_nodes | new_returns]`
(line 117). -/
def tReturnsOf (sends nr : List Node) (w : String) : List Node :=
  (orderedUnion sends nr).filter (fun r => is_my_op r w)

/-- Assignment `d[k] = v` on a Python dict modelled as an association list:
overwrite in place if the key exists, else append. -/
def dictInsertNat (d : List (Nat × Nat)) (k v : Nat) : List (Nat × Nat) :=
  if d.any (fun p => p.1 == k) then
    d.map (fun p => if p.1 == k then (k, v) else p)
  else d ++ [(k, v)]

/-- The `comp.returns` loop (lines 152-157):

    comp.returns = dict()
    for i, op in enumerate(t_returns[t_name]):
        if op in self.returns and 'hetr_replaced_by' not in op.metadata:
            comp.returns[op] = i
        elif 'replaces_op' in op.metadata and op.metadata['replaces_op'] in self.returns:
            comp.returns[op.metadata['replaces_op']] = i

`selfRet` is `self.returns` as the list of object identities of the requested
returns; dict keys are likewise object identities. -/
def compReturnsGo (selfRet : List Nat) : Nat → List Node → List (Nat × Nat) → List (Nat × Nat)
  | _, [], d => d
  | i, op :: rest, d =>
    let d2 :=
      if op.nid ∈ selfRet ∧ op.hetr_replaced_by = none then
        dictInsertNat d op.nid i
      else
        match op.replaces_op with
        | some r => if r ∈ selfRet then dictInsertNat d r i else d
        | none => d
    compReturnsGo selfRet (i + 1) rest d2

/-- `comp.returns` for one worker, starting from the empty dict at index 0. -/
def workerReturnMap (selfRet : List Nat) (tr : List Node) : List (Nat × Nat) :=
  compReturnsGo selfRet 0 tr []

/-- The key set of a dict. -/
def dKeys (d : List (Nat × Nat)) : List Nat := d.map Prod.fst

theorem mem_dKeys_insert_self (d : List (Nat × Nat)) (k v : Nat) :
    k ∈ dKeys (dictInsertNat d k v) := by
  unfold dictInsertNat dKeys
  by_cases h : d.any (fun p => p.1 == k)
  · rw [if_pos h]
    obtain ⟨p, hp, hpk⟩ := List.any_eq_true.mp h
    refine List.mem_map.mpr ⟨(k, v), List.mem_map.mpr ⟨p, hp, ?_⟩, rfl⟩
    rw [if_pos hpk]
  · rw [if_neg h]
    simp

theorem mem_dKeys_insert_mono (d : List (Nat × Nat)) (k v k0 : Nat)
    (h : k0 ∈ dKeys d) : k0 ∈ dKeys (dictInsertNat d k v) := by
  unfold dictInsertNat dKeys at *
  by_cases hany : d.any (fun p => p.1 == k)
  · rw [if_pos hany]
    obtain ⟨p, hp, hfst⟩ := List.mem_map.mp h
    refine List.mem_map.mpr ⟨if p.1 == k then (k, v) else p, List.mem_map.mpr ⟨p, hp, rfl⟩, ?_⟩
    by_cases hpk : p.1 == k
    · rw [if_pos hpk]
      have : p.1 = k := by simpa using hpk
      rw [← hfst, ← this]
    · rw [if_neg hpk]
      exact hfst
  · rw [if_neg hany]
    simp only [List.map_append]
    exact List.mem_append_left _ h

theorem mem_dKeys_insert_elim (d : List (Nat × Nat)) (k v k0 : Nat)
    (h : k0 ∈ dKeys (dictInsertNat d k v)) : k0 = k ∨ k0 ∈ dKeys d := by
  unfold dictInsertNat dKeys at *
  by_cases hany : d.any (fun p => p.1 == k)
  · rw [if_pos hany] at h
    obtain ⟨q, hq, hfst⟩ := List.mem_map.mp h
    obtain ⟨p, hp, hqp⟩ := List.mem_map.mp hq
    by_cases hpk : p.1 == k
    · rw [if_pos hpk] at hqp
      left
      rw [← hfst, ← hqp]
    · rw [if_neg hpk] at hqp
      right
      exact List.mem_map.mpr ⟨p, hp, by rw [← hqp] at hfst; exact hfst⟩
  · rw [if_neg hany] at h
    simp only [List.map_append] at h
    rcases List.mem_append.mp h with h | h
    · right; exact h
    · left
      simpa using h

theorem dKeys_compReturnsGo_mono (selfRet : List Nat) :
    ∀ (tr : List Node) (i : Nat) (d : List (Nat × Nat)) (k : Nat),
      k ∈ dKeys d → k ∈ dKeys (compReturnsGo selfRet i tr d) := by
  intro tr
  induction tr with
  | nil => intro i d k h; simpa [compReturnsGo] using h
  | cons op rest ih =>
    intro i d k h
    simp only [compReturnsGo]
    apply ih
    by_cases hA : (op.nid ∈ selfRet ∧ op.hetr_replaced_by = none)
    · rw [if_pos hA]
      exact mem_dKeys_insert_mono _ _ _ _ h
    · rw [if_neg hA]
      cases hro : op.replaces_op with
      | none => simp only [hro]; exact h
      | some r =>
        simp only [hro]
        by_cases hr : r ∈ selfRet
        · rw [if_pos hr]
          exact mem_dKeys_insert_mono _ _ _ _ h
        · rw [if_neg hr]
          exact h

theorem dKeys_compReturnsGo_subset (selfRet : List Nat) :
    ∀ (tr : List Node) (i : Nat) (d : List (Nat × Nat)) (k : Nat),
      k ∈ dKeys (compReturnsGo selfRet i tr d) → k ∈ selfRet ∨ k ∈ dKeys d := by
  intro tr
  induction tr with
  | nil => intro i d k h; right; simpa [compReturnsGo] using h
  | cons op rest ih =>
    intro i d k h
    simp only [compReturnsGo] at h
    by_cases hA : (op.nid ∈ selfRet ∧ op.hetr_replaced_by = none)
    · rw [if_pos hA] at h
      rcases ih (i + 1) _ k h with h2 | h2
      · left; exact h2
      · rcases mem_dKeys_insert_elim _ _ _ _ h2 with h3 | h3
        · left; rw [h3]; exact hA.1
        · right; exact h3
    · rw [if_neg hA] at h
      cases hro : op.replaces_op with
      | none =>
        simp only [hro] at h
        exact ih (i + 1) _ k h
      | some r =>
        simp only [hro] at h
        by_cases hr : r ∈ selfRet
        · rw [if_pos hr] at h
          rcases ih (i + 1) _ k h with h2 | h2
          · left; exact h2
          · rcases mem_dKeys_insert_elim _ _ _ _ h2 with h3 | h3
            · left; rw [h3]; exact hr
            · right; exact h3
        · rw [if_neg hr] at h
          exact ih (i + 1) _ k h

theorem dKeys_compReturnsGo_covers (selfRet : List Nat) :
    ∀ (tr : List Node) (i : Nat) (d : List (Nat × Nat)) (op : Node), op ∈ tr →
      ((op.nid ∈ selfRet ∧ op.hetr_replaced_by = none) →
        op.nid ∈ dKeys (compReturnsGo selfRet i tr d)) ∧
      (¬ (op.nid ∈ selfRet ∧ op.hetr_replaced_by = none) →
        ∀ r, op.replaces_op = some r → r ∈ selfRet →
          r ∈ dKeys (compReturnsGo selfRet i tr d)) := by
  intro tr
  induction tr with
  | nil => intro i d op hop; simp at hop
  | cons op' rest ih =>
    intro i d op hop
    rcases List.mem_cons.mp hop with heq | hmem
    · subst heq
      constructor
      · intro hA
        simp only [compReturnsGo, if_pos hA]
        exact dKeys_compReturnsGo_mono selfRet rest (i + 1) _ _
          (mem_dKeys_insert_self _ _ _)
      · intro hA r hro hr
        simp only [compReturnsGo, if_neg hA, hro, if_pos hr]
        exact dKeys_compReturnsGo_mono selfRet rest (i + 1) _ _
          (mem_dKeys_insert_self _ _ _)
    · constructor
      · intro hA
        simp only [compReturnsGo]
        exact (ih (i + 1) _ op hmem).1 hA
      · intro hA r hro hr
        simp only [compReturnsGo]
        exact (ih (i + 1) _ op hmem).2 hA r hro hr

theorem mem_orderedUnion_right (sends nr : List Node) (x : Node) (hx : x ∈ nr) :
    x ∈ orderedUnion sends nr := by
  unfold orderedUnion
  by_cases hs : x ∈ sends
  · exact List.mem_append_left _ hs
  · exact List.mem_append_right _ (List.mem_filter.mpr ⟨hx, by simpa using hs⟩)

theorem newReturns_entry (tmOf : Nat → TransMeta) :
    ∀ (rets : List Node) (base : Nat) (r : Node), r ∈ rets →
      ∃ fid, base ≤ fid ∧ (wrapReturn fid (tmOf fid) r).2 ∈ newReturns tmOf base rets := by
  intro rets
  induction rets with
  | nil => intro base r hr; simp at hr
  | cons r0 rest ih =>
    intro base r hr
    rcases List.mem_cons.mp hr with heq | hmem
    · subst heq
      exact ⟨base, Nat.le_refl base, by simp [newReturns, wrapReturnsGo]⟩
    · obtain ⟨fid, hle, hmem2⟩ := ih (base + 1) r hmem
      refine ⟨fid, by omega, ?_⟩
      simp only [newReturns, wrapReturnsGo, List.map_cons, List.mem_cons]
      right
      exact hmem2

/-- Claim C4: the union over all workers of the per-worker `comp.returns` key
sets, with gather wrappers contributing the node they replaced, is exactly the
originally requested return set; send nodes and other synthetic nodes never
appear as keys.  Hypotheses record facts established outside the modelled
lines: fresh `ResultOp` identities are distinct from existing ones
(`hfresh`), requested returns carry no `hetr_replaced_by` before the wrap
loop runs (`hclean`), and the device-assignment pass gives every
`new_returns` entry a transformer matching at least one registered worker
(`hcover`). -/
theorem union_return_keys (sends rets : List Node) (base : Nat) (tmOf : Nat → TransMeta)
    (workers : List String)
    (hfresh : ∀ r ∈ rets, r.nid < base)
    (hclean : ∀ r ∈ rets, r.hetr_replaced_by = none)
    (hcover : ∀ e ∈ newReturns tmOf base rets, ∃ w ∈ workers, is_my_op e w = true) :
    ∀ k, (∃ w ∈ workers,
            k ∈ dKeys (workerReturnMap (rets.map Node.nid)
              (tReturnsOf sends (newReturns tmOf base rets) w))) ↔
          k ∈ rets.map Node.nid := by
  intro k
  constructor
  · rintro ⟨w, _, hk⟩
    rcases dKeys_compReturnsGo_subset _ _ _ _ _ hk with h | h
    · exact h
    · simp [dKeys] at h
  · intro hk
    obtain ⟨r, hr, hnid⟩ := List.mem_map.mp hk
    obtain ⟨fid, hble, hmem⟩ := newReturns_entry tmOf rets base r hr
    obtain ⟨w, hw, hmy⟩ := hcover _ hmem
    have htr : (wrapReturn fid (tmOf fid) r).2 ∈
        tReturnsOf sends (newReturns tmOf base rets) w :=
      List.mem_filter.mpr ⟨mem_orderedUnion_right _ _ _ hmem, hmy⟩
    refine ⟨w, hw, ?_⟩
    cases hsplit : isSplitDev r.device_id with
    | false =>
      have he : (wrapReturn fid (tmOf fid) r).2 = r := by
        simp [wrapReturn, hsplit]
      rw [he] at htr
      have := (dKeys_compReturnsGo_covers (rets.map Node.nid)
        (tReturnsOf sends (newReturns tmOf base rets) w) 0 [] r htr).1
        ⟨List.mem_map.mpr ⟨r, hr, rfl⟩, hclean r hr⟩
      rw [← hnid]
      exact this
    | true =>
      have he : (wrapReturn fid (tmOf fid) r).2 = mkResultOp fid (tmOf fid) r.nid := by
        simp [wrapReturn, hsplit]
      rw [he] at htr
      have hA : ¬ ((mkResultOp fid (tmOf fid) r.nid).nid ∈ rets.map Node.nid ∧
          (mkResultOp fid (tmOf fid) r.nid).hetr_replaced_by = none) := by
        rintro ⟨hin, -⟩
        obtain ⟨r2, hr2, hnid2⟩ := List.mem_map.mp hin
        have := hfresh r2 hr2
        simp only [mkResultOp] at hnid2
        omega
      have := (dKeys_compReturnsGo_covers (rets.map Node.nid)
        (tReturnsOf sends (newReturns tmOf base rets) w) 0 []
        (mkResultOp fid (tmOf fid) r.nid) htr).2 hA r.nid (by simp [mkResultOp])
        (List.mem_map.mpr ⟨r, hr, rfl⟩)
      rw [← hnid]
      exact this

/-- A plain single-device requested return. -/
def demoA : Node :=
  { nid := 1, isResult := false, transformer := TransMeta.one "cpu0",
    device_id := some (DevId.one 0), is_split_op := false,
    hetr_replaced_by := none, replaces_op := none, args := [] }

/-- A requested return split across devices 0 and 1. -/
def demoB : Node :=
  { nid := 2, isResult := false, transformer := TransMeta.one "cpu1",
    device_id := some (DevId.many [0, 1]), is_split_op := false,
    hetr_replaced_by := none, replaces_op := none, args := [] }

/-- A synthetic send node accumulated by the communication pass. -/
def demoS : Node :=
  { nid := 5, isResult := false, transformer := TransMeta.one "cpu1",
    device_id := some (DevId.one 1), is_split_op := false,
    hetr_replaced_by := none, replaces_op := none, args := [1] }

/-- Witness for C4 on a two-worker build with one plain return, one split
return and one send node, checked at the split return's identity. -/
theorem union_return_keys_witness :
    (∃ w ∈ ["cpu0", "cpu1"],
        2 ∈ dKeys (workerReturnMap ([demoA, demoB].map Node.nid)
          (tReturnsOf [demoS]
            (newReturns (fun _ => TransMeta.one "cpu0") 10 [demoA, demoB]) w))) ↔
      2 ∈ [demoA, demoB].map Node.nid :=
  union_return_keys [demoS] [demoA, demoB] 10 (fun _ => TransMeta.one "cpu0")
    ["cpu0", "cpu1"] (by decide) (by decide) (by decide) 2

/-- `comp.param_idx` (lines 148-149):

    comp.param_idx = [g_pos for g_pos, p in enumerate(self.computation_op.parameters)
                      if is_my_op(p, t_name)]
-/
def paramIdx (params : List Node) (w : String) : List Nat :=
  ((params.enum).filter (fun gp => is_my_op gp.2 w)).map Prod.fst

/-- `child.feed_input([args[i] for i in child.param_idx])` (line 171).  The
recorded indices come from `enumerate`, hence are always in range; `getD`
with default 0 models the in-range subscript. -/
def feedInput (args : List Int) (idx : List Nat) : List Int :=
  idx.map (fun i => args.getD i 0)

/-- Claim C8: a broadcast parameter — one whose device-assignment metadata
matches several workers — appears in each matching worker's `param_idx`, in
every case at the same global position `g`; the recorded indices are strictly
increasing (order preserving), and at invocation each worker is fed exactly
the global argument values at its recorded indices, in that order. -/
theorem broadcast_param (params : List Node) (w1 w2 : String) (g : Nat) (p : Node)
    (hg : params[g]? = some p) (h1 : is_my_op p w1 = true) (h2 : is_my_op p w2 = true) :
    g ∈ paramIdx params w1 ∧ g ∈ paramIdx params w2 ∧
    List.Pairwise (fun a b => a < b) (paramIdx params w1) ∧
    ∀ args : List Int, feedInput args (paramIdx params w1) =
      (paramIdx params w1).map (fun i => args.getD i 0) := by
  have hmem : ∀ w : String, is_my_op p w = true → g ∈ paramIdx params w := by
    intro w hw
    unfold paramIdx
    apply List.mem_map.mpr
    exact ⟨(g, p), List.mem_filter.mpr ⟨List.mem_enum_iff_getElem?.mpr hg, hw⟩, rfl⟩
  have hsub : (paramIdx params w1).Sublist (List.range params.length) := by
    unfold paramIdx
    have hs := List.Sublist.map Prod.fst
      (List.filter_sublist (p := fun gp => is_my_op gp.2 w1) params.enum)
    rwa [List.enum_map_fst] at hs
  exact ⟨hmem w1 h1, hmem w2 h2,
         List.Pairwise.sublist hsub (List.pairwise_lt_range params.length),
         fun args => rfl⟩

/-- A parameter whose assignment metadata lists two workers. -/
def demoP : Node :=
  { nid := 3, isResult := false, transformer := TransMeta.many ["cpu0", "cpu1"],
    device_id := none, is_split_op := false,
    hetr_replaced_by := none, replaces_op := none, args := [] }

/-- Witness for C8: the broadcast parameter occupies global position 1 in both
workers' index lists. -/
theorem broadcast_param_witness :
    1 ∈ paramIdx [demoA, demoP] "cpu0" ∧ 1 ∈ paramIdx [demoA, demoP] "cpu1" ∧
    List.Pairwise (fun a b => a < b) (paramIdx [demoA, demoP] "cpu0") ∧
    ∀ args : List Int, feedInput args (paramIdx [demoA, demoP] "cpu0") =
      (paramIdx [demoA, demoP] "cpu0").map (fun i => args.getD i 0) :=
  broadcast_param [demoA, demoP] "cpu0" "cpu1" 1 demoP (by decide) (by decide) (by decide)

/-- The shape of `computation_op.returns` as dispatched by the `isinstance`
chain in `__call__` (lines 176-183): a single `Op`, a
`collections.Sequence`/`OrderedSet`, a `collections.Set`, or anything else
(in particular `None` when no returns were declared). -/
inductive ReturnsSpec : Type
  | single (op : Nat)
  | seqLike (ops : List Nat)
  | setLike (ops : List Nat)
  | other
  deriving DecidableEq

/-- One child computation at invocation time: its recorded `param_idx` and
the op-to-value mapping its `get_results()` yields (the RPC client lives
outside this module, so the mapping is data here). -/
structure ChildComp : Type where
  param_idx : List Nat
  results : List (Nat × Int)
  deriving DecidableEq

/-- Python dict subscript `d[k]`, `none` standing for the `KeyError` case. -/
def dictGet (d : List (Nat × Int)) (k : Nat) : Option Int :=
  (d.find? (fun p => p.1 == k)).map Prod.snd

/-- `d[k] = v` for the value dict. -/
def dictInsertVal (d : List (Nat × Int)) (k : Nat) (v : Int) : List (Nat × Int) :=
  if d.any (fun p => p.1 == k) then
    d.map (fun p => if p.1 == k then (k, v) else p)
  else d ++ [(k, v)]

/-- `return_vals.update(child.get_results())` (line 175), folded over all
children in iteration order. -/
def mergedVals (children : List ChildComp) : List (Nat × Int) :=
  children.foldl (fun d c => c.results.foldl (fun d2 kv => dictInsertVal d2 kv.1 kv.2) d) []

/-- The value `__call__` hands back to the caller. -/
inductive CallResult : Type
  | one (v : Option Int)
  | tup (vs : List (Option Int))
  | dict (d : List (Nat × Int))
  | noneVal
  deriving DecidableEq

/-- What one invocation does: the values fed to each child (line 171), the
result mappings collected from each child (lines 173-175), and the value
returned to the caller (lines 176-183). -/
structure CallOutcome : Type where
  feeds : List (List Int)
  collected : List (List (Nat × Int))
  result : CallResult
  deriving DecidableEq

/-- `HetrComputation.__call__` (lines 161-183): feed every child the global
argument values at its recorded indices, collect and merge every child's
results, then reshape according to the declared returns. -/
def hetrCall (children : List ChildComp) (args : List Int) (ret : ReturnsSpec) : CallOutcome :=
  { feeds := children.map (fun c => feedInput args c.param_idx),
    collected := children.map (fun c => c.results),
    result :=
      match ret with
      | ReturnsSpec.single op => CallResult.one (dictGet (mergedVals children) op)
      | ReturnsSpec.seqLike ops => CallResult.tup (ops.map (dictGet (mergedVals children)))
      | ReturnsSpec.setLike _ => CallResult.dict (mergedVals children)
      | ReturnsSpec.other => CallResult.noneVal }

/-- The key set of a value dict. -/
def dValKeys (d : List (Nat × Int)) : List Nat := d.map Prod.fst

/-- Projects the dict out of a `CallResult`, with a fallback for the other
shapes. -/
def CallResult.dictOr : CallResult → List (Nat × Int) → List (Nat × Int)
  | CallResult.dict d, _ => d
  | _, dflt => dflt

/-- Claim C3: the merged result is reshaped to the declared returns shape —
a single declared node yields that node's merged value, a declared sequence
yields the values as a tuple in declaration order, and a declared set yields
the merged mapping itself, keyed by the declared nodes' identities whenever
the merge covers exactly the declared set. -/
theorem call_reshapes_returns (children : List ChildComp) (args : List Int) :
    (∀ op v, dictGet (mergedVals children) op = some v →
      (hetrCall children args (ReturnsSpec.single op)).result = CallResult.one (some v)) ∧
    (∀ (ops : List Nat) (f : Nat → Int),
      (∀ op ∈ ops, dictGet (mergedVals children) op = some (f op)) →
      (hetrCall children args (ReturnsSpec.seqLike ops)).result =
        CallResult.tup (ops.map (fun op => some (f op)))) ∧
    (∀ ops : List Nat, (∀ k, k ∈ dValKeys (mergedVals children) ↔ k ∈ ops) →
      (hetrCall children args (ReturnsSpec.setLike ops)).result =
        CallResult.dict (mergedVals children) ∧
      ∀ k, k ∈ dValKeys ((hetrCall children args (ReturnsSpec.setLike ops)).result.dictOr []) ↔
        k ∈ ops) := by
  refine ⟨?_, ?_, ?_⟩
  · intro op v hv
    simp [hetrCall, hv]
  · intro ops f hf
    simp only [hetrCall]
    congr 1
    exact List.map_congr_left (fun op hop => hf op hop)
  · intro ops hk
    exact ⟨rfl, hk⟩

/-- Witness for C3 on two children owning one return each (ids 5 and 6 with
values 7 and 8): all three declared shapes are reproduced. -/
theorem call_reshapes_returns_witness :
    (hetrCall [⟨[0], [(5, 7)]⟩, ⟨[1], [(6, 8)]⟩] [4, 9] (ReturnsSpec.single 5)).result =
      CallResult.one (some 7) ∧
    (hetrCall [⟨[0], [(5, 7)]⟩, ⟨[1], [(6, 8)]⟩] [4, 9] (ReturnsSpec.seqLike [5, 6])).result =
      CallResult.tup ([5, 6].map (fun op => some (if op == 5 then (7 : Int) else 8))) ∧
    (hetrCall [⟨[0], [(5, 7)]⟩, ⟨[1], [(6, 8)]⟩] [4, 9] (ReturnsSpec.setLike [5, 6])).result =
      CallResult.dict (mergedVals [⟨[0], [(5, 7)]⟩, ⟨[1], [(6, 8)]⟩]) ∧
    (5 ∈ dValKeys ((hetrCall [⟨[0], [(5, 7)]⟩, ⟨[1], [(6, 8)]⟩] [4, 9]
        (ReturnsSpec.setLike [5, 6])).result.dictOr []) ↔ 5 ∈ [5, 6]) :=
  ⟨(call_reshapes_returns [⟨[0], [(5, 7)]⟩, ⟨[1], [(6, 8)]⟩] [4, 9]).1 5 7 (by decide),
   (call_reshapes_returns [⟨[0], [(5, 7)]⟩, ⟨[1], [(6, 8)]⟩] [4, 9]).2.1 [5, 6]
     (fun op => if op == 5 then 7 else 8) (by decide),
   ((call_reshapes_returns [⟨[0], [(5, 7)]⟩, ⟨[1], [(6, 8)]⟩] [4, 9]).2.2 [5, 6]
     (fun _ => Iff.rfl)).1,
   ((call_reshapes_returns [⟨[0], [(5, 7)]⟩, ⟨[1], [(6, 8)]⟩] [4, 9]).2.2 [5, 6]
     (fun _ => Iff.rfl)).2 5⟩

/-- Claim C10: when the declared returns match none of the `isinstance`
branches — in particular `returns is None` when nothing was declared — the
call still feeds every child its argument slice and collects every child's
results, and then returns `None` instead of raising. -/
theorem call_other_returns_none (children : List ChildComp) (args : List Int) :
    (hetrCall children args ReturnsSpec.other).result = CallResult.noneVal ∧
    (hetrCall children args ReturnsSpec.other).feeds =
      children.map (fun c => feedInput args c.param_idx) ∧
    (hetrCall children args ReturnsSpec.other).feeds.length = children.length ∧
    (hetrCall children args ReturnsSpec.other).collected =
      children.map (fun c => c.results) ∧
    (hetrCall children args ReturnsSpec.other).collected.length = children.length := by
  refine ⟨rfl, rfl, ?_, rfl, ?_⟩ <;> simp [hetrCall]

/-- The orchestrator state touched by `HetrTransformer.__init__` (lines
200-213) and `HetrTransformer.close` (lines 215-227): the pid recorded at
construction, the `is_closed` flag, one `close_transformer()` flag and one
`close()` flag per child transformer client, the MPI launcher, and the
superclass close. -/
structure OrchState : Type where
  myPid : Nat
  isClosed : Bool
  childTransClosed : List Bool
  childClosed : List Bool
  launcherClosed : Bool
  superClosed : Bool
  deriving DecidableEq

/-- `HetrTransformer.__init__`: records `os.getpid()` and starts with
everything open. -/
def initHetr (pid : Nat) (nChildren : Nat) : OrchState :=
  { myPid := pid, isClosed := false,
    childTransClosed := List.replicate nChildren false,
    childClosed := List.replicate nChildren false,
    launcherClosed := false, superClosed := false }

/-- `HetrTransformer.close` (lines 215-227), called from a process whose
current pid is `curPid`:

    if self.is_closed: return
    if self.my_pid != os.getpid(): return
    for t in self.child_transformers.values(): t.close_transformer()
    for t in self.child_transformers.values(): t.close()
    self.mpilauncher.close()
    super(HetrTransformer, self).close()
    self.is_closed = True
-/
def closeHetr (curPid : Nat) (s : OrchState) : OrchState :=
  if s.isClosed then s
  else if s.myPid ≠ curPid then s
  else { s with
         childTransClosed := s.childTransClosed.map (fun _ => true),
         childClosed := s.childClosed.map (fun _ => true),
         launcherClosed := true, superClosed := true, isClosed := true }

/-- Claim C5: closing twice yields the same final state as closing once, and a
close issued from a process whose pid differs from the pid recorded at
construction leaves the whole state unchanged — closed flag still unset,
children and launcher still open. -/
theorem close_idempotent_and_guarded (p : Nat) (s : OrchState) :
    closeHetr p (closeHetr p s) = closeHetr p s ∧
    (s.myPid ≠ p → closeHetr p s = s) := by
  constructor
  · by_cases h1 : s.isClosed
    · simp [closeHetr, h1]
    · by_cases h2 : s.myPid ≠ p
      · simp [closeHetr, h1, h2]
      · simp [closeHetr, h1, h2]
  · intro h
    by_cases h1 : s.isClosed
    · simp [closeHetr, h1]
    · simp [closeHetr, h1, h]

/-- Witness for C5: a freshly constructed orchestrator owned by pid 1, closed
from a copy running as pid 2, twice and once. -/
theorem close_idempotent_witness :
    closeHetr 2 (closeHetr 2 (initHetr 1 3)) = closeHetr 2 (initHetr 1 3) ∧
    closeHetr 2 (initHetr 1 3) = initHetr 1 3 :=
  ⟨(close_idempotent_and_guarded 2 (initHetr 1 3)).1,
   (close_idempotent_and_guarded 2 (initHetr 1 3)).2 (by decide)⟩

/-- The coordinator-side calls of the two loops at lines 139-147, in program
order. -/
inductive BuildEv : Type
  | buildTransformer (w : String)
  | create_computation (w : String)
  | get_computation (w : String)
  deriving DecidableEq

/-- The first loop (lines 139-144): for each registered worker, in registry
order, `trans.build_transformer()` then the non-blocking
`trans.create_computation(...)`.  `child_transformers` is an
insertion-ordered dict keyed by worker name, so `iteritems` yields the
registry order. -/
def createLoop : List String → List BuildEv
  | [] => []
  | w :: rest =>
    BuildEv.buildTransformer w :: BuildEv.create_computation w :: createLoop rest

/-- The second loop (lines 146-158): for each worker, in the same registry
order, the blocking `trans.get_computation()`. -/
def getLoop : List String → List BuildEv
  | [] => []
  | w :: rest => BuildEv.get_computation w :: getLoop rest

/-- The full call trace of the build: the first loop runs to completion before
the second starts. -/
def buildTrace (ws : List String) : List BuildEv := createLoop ws ++ getLoop ws

def isCreate : BuildEv → Bool
  | BuildEv.create_computation _ => true
  | _ => false

def isGet : BuildEv → Bool
  | BuildEv.get_computation _ => true
  | _ => false

def createName : BuildEv → Option String
  | BuildEv.create_computation w => some w
  | _ => none

def getName : BuildEv → Option String
  | BuildEv.get_computation w => some w
  | _ => none

theorem createLoop_no_get (ws : List String) : ∀ e ∈ createLoop ws, isGet e = false := by
  induction ws with
  | nil => intro e he; simp [createLoop] at he
  | cons w rest ih =>
    intro e he
    simp only [createLoop, List.mem_cons] at he
    rcases he with rfl | rfl | he
    · rfl
    · rfl
    · exact ih e he

theorem getLoop_no_create (ws : List String) : ∀ e ∈ getLoop ws, isCreate e = false := by
  induction ws with
  | nil => intro e he; simp [getLoop] at he
  | cons w rest ih =>
    intro e he
    simp only [getLoop, List.mem_cons] at he
    rcases he with rfl | he
    · rfl
    · exact ih e he

theorem createLoop_creates (ws : List String) : (createLoop ws).filterMap createName = ws := by
  induction ws with
  | nil => rfl
  | cons w rest ih => simp [createLoop, List.filterMap_cons, createName, ih]

theorem getLoop_creates (ws : List String) : (getLoop ws).filterMap createName = [] := by
  induction ws with
  | nil => rfl
  | cons w rest ih => simp [getLoop, List.filterMap_cons, createName, ih]

theorem createLoop_gets (ws : List String) : (createLoop ws).filterMap getName = [] := by
  induction ws with
  | nil => rfl
  | cons w rest ih => simp [createLoop, List.filterMap_cons, getName, ih]

theorem getLoop_gets (ws : List String) : (getLoop ws).filterMap getName = ws := by
  induction ws with
  | nil => rfl
  | cons w rest ih => simp [getLoop, List.filterMap_cons, getName, ih]

/-- Claim C7: during a build, the non-blocking `create_computation` requests
go out to every registered worker in registry order, all of them before any
blocking `get_computation`, and the blocking fetches then follow in the same
registry order. -/
theorem create_all_before_get (ws : List String) :
    (buildTrace ws).filterMap createName = ws ∧
    (buildTrace ws).filterMap getName = ws ∧
    ∀ i j, isCreate ((buildTrace ws).getD i (BuildEv.buildTransformer "")) = true →
           isGet ((buildTrace ws).getD j (BuildEv.buildTransformer "")) = true →
           i < j := by
  refine ⟨?_, ?_, ?_⟩
  · rw [buildTrace, List.filterMap_append, createLoop_creates, getLoop_creates,
      List.append_nil]
  · rw [buildTrace, List.filterMap_append, createLoop_gets, getLoop_gets,
      List.nil_append]
  · intro i j hci hgj
    have hi : i < (createLoop ws).length := by
      by_contra hi2
      push_neg at hi2
      rw [buildTrace, List.getD_eq_getElem?_getD, List.getElem?_append_right hi2] at hci
      cases he : (getLoop ws)[i - (createLoop ws).length]? with
      | none => rw [he] at hci; simp [isCreate] at hci
      | some e =>
        rw [he] at hci
        simp only [Option.getD_some] at hci
        rw [getLoop_no_create ws e (List.getElem?_mem he)] at hci
        exact absurd hci (by simp)
    have hj : (createLoop ws).length ≤ j := by
      by_contra hj2
      push_neg at hj2
      rw [buildTrace, List.getD_eq_getElem?_getD, List.getElem?_append_left hj2] at hgj
      cases he : (createLoop ws)[j]? with
      | none =>
        have hlen := List.getElem?_eq_none_iff.mp he
        omega
      | some e =>
        rw [he] at hgj
        simp only [Option.getD_some] at hgj
        rw [createLoop_no_get ws e (List.getElem?_mem he)] at hgj
        exact absurd hgj (by simp)
    omega

/-- Witness for C7 with two registered workers: both creates (at positions 1
and 3) precede both gets (at positions 4 and 5), and both phases run in
registry order. -/
theorem create_all_before_get_witness :
    (buildTrace ["cpu0", "cpu1"]).filterMap createName = ["cpu0", "cpu1"] ∧
    (buildTrace ["cpu0", "cpu1"]).filterMap getName = ["cpu0", "cpu1"] ∧
    (1 : Nat) < 4 :=
  ⟨(create_all_before_get ["cpu0", "cpu1"]).1,
   (create_all_before_get ["cpu0", "cpu1"]).2.1,
   (create_all_before_get ["cpu0", "cpu1"]).2.2 1 4 (by decide) (by decide)⟩

/-- The possible successful results of `build_transformer` (lines 37-55). -/
inductive TransKind : Type
  | cpu
  | gpu
  deriving DecidableEq

/-- `build_transformer` (lines 37-55):

    if 'cpu' in name: transformer = make_transformer_factory('cpu', ...)()
    elif 'gpu' in name:
        try: from ngraph.transformers.gputransform import GPUTransformer
             transformer = make_transformer_factory('gpu', ...)()
        except ImportError:
            assert False, "Fatal: Unable to initialize GPU, ..."
    else: assert False, "Unknown device!"
    return transformer

`gpuImportOk` models whether the GPU backend import succeeds; `assert False,
msg` raises `AssertionError(msg)`, modelled as `Except.error msg`.  The
function is pure graph-side configuration: it never touches the worker
launcher (`MPILauncher.launch` is only called later, in
`HetrComputation.__init__` line 106), so its failures precede any launch. -/
def build_transformer (gpuImportOk : Bool) (name : String) : Except String TransKind :=
  if strIn "cpu" name then Except.ok TransKind.cpu
  else if strIn "gpu" name then
    if gpuImportOk then Except.ok TransKind.gpu
    else Except.error "Fatal: Unable to initialize GPU, but GPU transformer was requested."
  else Except.error "Unknown device!"

/-- Claim C9: a device name containing neither 'cpu' nor 'gpu' makes
`build_transformer` raise, and a 'gpu' name with an unavailable GPU backend
makes it raise; in both cases no transformer is ever returned. -/
theorem unknown_device_fails (gpuImportOk : Bool) (name : String)
    (hc : strIn "cpu" name = false) :
    (strIn "gpu" name = false →
      build_transformer gpuImportOk name = Except.error "Unknown device!") ∧
    (strIn "gpu" name = true → gpuImportOk = false →
      build_transformer gpuImportOk name =
        Except.error "Fatal: Unable to initialize GPU, but GPU transformer was requested.") := by
  constructor
  · intro hg
    simp [build_transformer, hc, hg]
  · intro hg hG
    simp [build_transformer, hc, hg, hG]

/-- Witness for C9: the unknown name "mlu0" and the GPU name "gpu0" without an
importable GPU backend both fail. -/
theorem unknown_device_fails_witness :
    build_transformer true "mlu0" = Except.error "Unknown device!" ∧
    build_transformer false "gpu0" =
      Except.error "Fatal: Unable to initialize GPU, but GPU transformer was requested." :=
  ⟨(unknown_device_fails true "mlu0" (by decide)).1 (by decide),
   (unknown_device_fails false "gpu0" (by decide)).2 (by decide) rfl⟩
